import Mathlib

/-!
# autocommit: commit-message generation pipeline

A shallow embedding of

* `internal/service/luminai_service.go`  (`GetUserPrompt`, `AnalyzeChanges`,
  `analyzeToChannel`, `GenerateCommitMessage`),
* `internal/delivery/cli/handler/root_handler.go`  (`RootHandler.RootCommand`),
* `cmd/config/provider/set.go`  (`availableProviders`, `isValidProvider`, `setCmd.Run`),

together with the properties of these functions.

Conventions of the embedding.

* A Go `string` is a list of characters (`Str`).  The library functions used by
  the code (`strings.TrimSpace`, `strings.ReplaceAll`, `strings.Join`, the `%s`
  and `%d` verbs of `fmt.Sprintf`) are given by their documented behaviour on
  well-formed UTF-8 text.
* A Go `error` is its message; `Option Error` is a possibly-nil error.
* Pointer parameters (`*string`, `*bool`, `*int`) are represented by the value
  they point to; where the code writes through a pointer the written cell is
  returned explicitly.
* `log.Fatalf` and `os.Exit` end the process: nothing after them runs and no
  value reaches the caller.
-/

namespace Autocommit

/-! ## Strings -/

/-- A Go string, as the sequence of its characters. -/
abbrev Str := List Char

/-- A Go error value, identified with its message. -/
abbrev Error := Str

/-- Go `unicode.IsSpace`: the characters with the Unicode White_Space property. -/
def isSpace (c : Char) : Bool :=
  let n := c.toNat
  (0x09 ≤ n && n ≤ 0x0D) || n == 0x20 || n == 0x85 || n == 0xA0 || n == 0x1680 ||
  (0x2000 ≤ n && n ≤ 0x200A) || n == 0x2028 || n == 0x2029 || n == 0x202F ||
  n == 0x205F || n == 0x3000

/-- Go `strings.TrimSpace`: leading white space is removed, then trailing white space. -/
def TrimSpace (s : Str) : Str :=
  (s.dropWhile isSpace).rdropWhile isSpace

/-- Scanning loop of `strings.ReplaceAll` for a non-empty `old`: `skip` counts the
characters of the current match that are still to be consumed. -/
def replaceFrom (old new : Str) : Nat → Str → Str
  | _, [] => []
  | skip + 1, _ :: t => replaceFrom old new skip t
  | 0, c :: t =>
    if old.isPrefixOf (c :: t) then new ++ replaceFrom old new (old.length - 1) t
    else c :: replaceFrom old new 0 t

/-- Go `strings.ReplaceAll s old new`: the non-overlapping occurrences of `old`, found
from left to right, are replaced by `new`.  For an empty `old`, `new` is inserted at
the start and after every character. -/
def ReplaceAll (s old new : Str) : Str :=
  match old with
  | [] => new ++ s.flatMap (fun c => c :: new)
  | _ :: _ => replaceFrom old new 0 s

/-- Go `strings.Join`. -/
def Join : List Str → Str → Str
  | [], _ => []
  | [a], _ => a
  | a :: b :: rest, sep => a ++ sep ++ Join (b :: rest) sep

/-- Decimal rendering of a Go `int` by the `%d` verb. -/
def fmtInt (n : Int) : Str :=
  if n < 0 then '-' :: Nat.toDigits 10 n.natAbs else Nat.toDigits 10 n.toNat

/-- The code-fence marker removed from a provider answer. -/
def fence : Str := "```".toList

/-- Result normalisation at the end of `AnalyzeChanges`:
`strings.TrimSpace(strings.ReplaceAll(result, fence, ""))`. -/
def norm (s : Str) : Str :=
  TrimSpace (ReplaceAll s fence [])

/-! ## Process outcomes -/

/-- Outcome of running a piece of code: it hands `v` back to its caller, or the process
is ended by `log.Fatalf` after logging `log`. -/
inductive Proc (α : Type) where
  | ret (v : α)
  | fatal (log : Str)
  deriving DecidableEq

/-! ## `internal/service/luminai_service.go` -/

/-- The service value: it carries the embedded base prompt. -/
structure LuminaiService where
  luminaiPrompt : Str

/-- The fields of `LuminaiCommitOptions`, each pointer replaced by its referent. -/
structure LuminaiCommitOptions where
  StageAll : Bool
  UserContext : Str
  Model : Str
  NoConfirm : Bool
  Quiet : Bool
  Push : Bool
  DryRun : Bool
  ShowDiff : Bool
  MaxLength : Int
  Language : Str
  Issue : Str
  NoVerify : Bool

/-- The fields of `LuminaiPreCommitData`.  `RelatedFiles` is a Go map; it is given as its
(directory, file) entries in the order in which a `range` loop visits them. -/
structure LuminaiPreCommitData where
  Files : List Str
  Diff : Str
  RelatedFiles : List (Str × Str)
  Issue : Str

/-- What `GetUserPrompt` yields: the two returned values, and the content of the string
the caller passed by pointer as `context`, as it is after the call. -/
structure UserPrompt where
  prompt : Str
  err : Option Error
  callerContext : Str

/-- Method `GetUserPrompt`.  With a non-empty context the local pointer is redirected to a
fresh string (the caller's string is not written); otherwise the empty string is
written through the pointer. -/
def LuminaiService.GetUserPrompt (_g : LuminaiService) (context diff : Str)
    (files : List Str) (maxLength : Int) (language issue : Str) : UserPrompt :=
  let localContext : Str :=
    if context ≠ [] then "Use the following context to understand intent: ".toList ++ context
    else []
  let callerContext : Str := if context ≠ [] then context else []
  let prompt : Str :=
    localContext ++ "\n\nCode diff:\n".toList ++ diff ++
    "\n\nNeighboring files:\n".toList ++ Join files ", ".toList ++
    "\n\nRequirements:\n- Maximum commit message length: ".toList ++ fmtInt maxLength ++
    " characters\n- Language: ".toList ++ language
  let prompt : Str :=
    if issue ≠ [] then prompt ++ ("\n- Reference issue: ".toList ++ issue) else prompt
  { prompt := prompt, err := none, callerContext := callerContext }

/-- The system prompt built in `AnalyzeChanges` (variable `enhancedluminaiPrompt`). -/
def enhancedPrompt (base language : Str) (maxLength : Int) (issue : Str) : Str :=
  let p := base
  let p :=
    if language ≠ "english".toList then
      p ++ ("\n\nIMPORTANT: Generate the commit message in ".toList ++ language ++
        " language.".toList)
    else p
  let p := p ++ ("\n\nIMPORTANT: Keep the commit message under ".toList ++ fmtInt maxLength ++
    " characters.".toList)
  let p :=
    if issue ≠ [] then
      p ++ ("\n\nIMPORTANT: Reference issue ".toList ++ issue ++
        " in the commit message.".toList)
    else p
  p

/-- The JSON request body: the map with keys `prompt`, `content` and `user`. -/
structure Payload where
  prompt : Str
  content : Str
  user : Str

/-- A JSON document. -/
inductive Json where
  | null
  | bool (b : Bool)
  | num (n : Int)
  | str (s : Str)
  | arr (items : List Json)
  | obj (members : List (Str × Json))

/-- What the HTTP exchange gives back to `AnalyzeChanges`: `http.Post` fails, or
`io.ReadAll` on the response body fails, or the body is read; a body is given by the
result of parsing it as JSON (a syntax error, or the document). -/
inductive HttpResult where
  | requestFailed (err : Error)
  | readFailed (err : Error)
  | body (parsed : Except Error Json)

/-- The name `encoding/json` gives the kind of a JSON document in its type errors. -/
def jsonKind : Json → Str
  | .null => "null".toList
  | .bool _ => "bool".toList
  | .num _ => "number".toList
  | .str _ => "string".toList
  | .arr _ => "array".toList
  | .obj _ => "object".toList

/-- The Go type of `responseData`, as `reflect.Type.String` prints it. -/
def responseTypeName : Str :=
  "struct \x7b result string \"json:\\\"result\\\"\" \x7d".toList

/-- The call `json.Unmarshal(body, &responseData)` where `responseData` is
`struct { result string }`: returns the error and the value of field `result`
afterwards.  `encoding/json` stores object members only into exported fields; the single
field `result` is unexported, so a JSON object (and `null`) leaves the struct at its
zero value.  Another kind of document cannot be stored into a struct at all and gives an
`UnmarshalTypeError`. -/
def unmarshalResponse (parsed : Except Error Json) : Option Error × Str :=
  match parsed with
  | .error e => (some e, [])
  | .ok .null => (none, [])
  | .ok (.obj _) => (none, [])
  | .ok doc =>
    (some ("json: cannot unmarshal ".toList ++ jsonKind doc ++
      " into Go value of type ".toList ++ responseTypeName), [])

/-- Method `AnalyzeChanges`.  `post` is the HTTP exchange for a given request body.
The parameters `geminiClient`, `ctx` and `modelName` are not read by the method.
`json.Marshal` of a map of three strings has no failure case. -/
def LuminaiService.AnalyzeChanges (g : LuminaiService) (post : Payload → HttpResult)
    (diff userContext : Str) (relatedFiles : List (Str × Str)) (maxLength : Int)
    (language issue : Str) : Proc (Str × Option Error) :=
  let relatedFilesArray : List Str :=
    relatedFiles.map (fun e => e.1 ++ "/".toList ++ e.2)
  let up := g.GetUserPrompt userContext diff relatedFilesArray maxLength language issue
  match up.err with
  | some err => .ret ([], some err)
  | none =>
    let _enhancedluminaiPrompt := enhancedPrompt g.luminaiPrompt language maxLength issue
    let payload : Payload := { prompt := [], content := up.prompt, user := [] }
    match post payload with
    | .requestFailed err => .fatal ("Request gagal: ".toList ++ err)
    | .readFailed _ => .ret ([], none)
    | .body parsed =>
      match unmarshalResponse parsed with
      | (some err, _) => .fatal ("Gagal decode JSON response: ".toList ++ err)
      | (none, result) => .ret (norm result, none)

/-- The tail of `analyzeToChannel`: the message put on the channel for a given outcome
of the `AnalyzeChanges` call, the empty string standing for an error. -/
def sentMessage (analysis : Proc (Str × Option Error)) : Proc Str :=
  match analysis with
  | .fatal log => .fatal log
  | .ret (message, err) =>
    match err with
    | some _ => .ret []
    | none => .ret message

/-- Method `analyzeToChannel`. -/
def LuminaiService.analyzeToChannel (g : LuminaiService) (post : Payload → HttpResult)
    (data : LuminaiPreCommitData) (opts : LuminaiCommitOptions) : Proc Str :=
  sentMessage (g.AnalyzeChanges post data.Diff opts.UserContext data.RelatedFiles
    opts.MaxLength opts.Language data.Issue)

/-- The error of the validation step of `GenerateCommitMessage`. -/
def noMessagesError : Error := "no commit messages were generated. try again".toList

/-- The body of `GenerateCommitMessage` around the analysis: `sent` is what
`analyzeToChannel` delivers and `spinner` is the error returned by the spinner's `Run`
(consulted only when not quiet).  As in the source, an error of the spinner is returned
before the channel is read, whatever the analysis does; only then is the channel read,
which never happens when the analysis has ended the process.  Terminal output is not
recorded. -/
def commitMessageFrom (quiet : Bool) (spinner : Option Error) (sent : Proc Str) :
    Proc (Str × Option Error) :=
  match (if !quiet then spinner else none) with
  | some err => .ret ([], some err)
  | none =>
    match sent with
    | .fatal log => .fatal log
    | .ret received =>
      let message := TrimSpace received
      if message = [] then .ret ([], some noMessagesError)
      else .ret (message, none)

/-- Method `GenerateCommitMessage`. -/
def LuminaiService.GenerateCommitMessage (g : LuminaiService) (post : Payload → HttpResult)
    (spinner : Option Error) (data : LuminaiPreCommitData) (opts : LuminaiCommitOptions) :
    Proc (Str × Option Error) :=
  commitMessageFrom opts.Quiet spinner (g.analyzeToChannel post data opts)

/-! ## `internal/delivery/cli/handler/root_handler.go` -/

/-- The configuration values the handler reads with `viper.GetString`. -/
structure Config where
  apiModel : Str
  aiProvider : Str
  apiKey : Str

/-- The caller's variables behind the pointer parameters of `RootHandler.RootCommand`. -/
structure Flags where
  stageAll : Bool
  userContext : Str
  model : Str
  noConfirm : Bool
  quiet : Bool
  push : Bool
  dryRun : Bool
  showDiff : Bool
  maxLength : Int
  aiProvider : Str
  language : Str
  issue : Str
  noVerify : Bool

/-- The arguments of one call of `RootUsecase.RootCommand`, pointers read at call time. -/
structure UseCaseArgs where
  apiKey : Str
  stageAll : Bool
  userContext : Str
  model : Str
  noConfirm : Bool
  quiet : Bool
  push : Bool
  dryRun : Bool
  showDiff : Bool
  maxLength : Int
  language : Str
  issue : Str
  noVerify : Bool

/-- One run of the function returned by `RootHandler.RootCommand`: the text printed to
standard output and standard error (styling left out), the calls made to the use case,
the exit status if the process was ended (`os.Exit`, `cobra.CheckErr`), and the caller's
flag variables as the handler leaves them. -/
structure HandlerRun where
  stdout : List Str
  stderr : List Str
  useCaseCalls : List UseCaseArgs
  exitCode : Option Nat
  flags : Flags

/-- The text printed when no provider is configured. -/
def providerMissingOutput : List Str :=
  ["Error: You need to choose AI provider, run this command to set AI Provider\n".toList,
   "\n".toList, "geminicommit config provider set ".toList]

/-- The text printed when no API key is configured. -/
def apiKeyMissingOutput : List Str :=
  ["Error: API key is still empty, run this command to set your API key\n".toList,
   "\n".toList, "geminicommit config key set ".toList, "api_key\n\n".toList]

/-- The function returned by `RootHandler.RootCommand`.  `useCase` is
`RootUsecase.RootCommand`, given by the error it returns. -/
def RootCommand (useCase : UseCaseArgs → Option Error) (cfg : Config) (flags : Flags) :
    HandlerRun :=
  let modelFromConfig := cfg.apiModel
  let aiProviderConfig := cfg.aiProvider
  if aiProviderConfig = [] then
    { stdout := providerMissingOutput, stderr := [], useCaseCalls := [],
      exitCode := some 1, flags := flags }
  else
    let flags : Flags :=
      if aiProviderConfig ≠ [] then { flags with aiProvider := aiProviderConfig } else flags
    let flags : Flags :=
      if modelFromConfig ≠ [] ∧ flags.model = "gemini-2.0-flash".toList then
        { flags with model := modelFromConfig }
      else flags
    let flags : Flags :=
      if flags.quiet && !flags.noConfirm then { flags with quiet := false } else flags
    let apiKey := cfg.apiKey
    if apiKey = [] then
      { stdout := apiKeyMissingOutput, stderr := [], useCaseCalls := [],
        exitCode := some 1, flags := flags }
    else
      let args : UseCaseArgs :=
        { apiKey := apiKey, stageAll := flags.stageAll, userContext := flags.userContext,
          model := flags.model, noConfirm := flags.noConfirm, quiet := flags.quiet,
          push := flags.push, dryRun := flags.dryRun, showDiff := flags.showDiff,
          maxLength := flags.maxLength, language := flags.language, issue := flags.issue,
          noVerify := flags.noVerify }
      match useCase args with
      | some err =>
        { stdout := [], stderr := ["Error: ".toList ++ err ++ "\n".toList],
          useCaseCalls := [args], exitCode := some 1, flags := flags }
      | none =>
        { stdout := [], stderr := [], useCaseCalls := [args], exitCode := none,
          flags := flags }

/-! ## `cmd/config/provider/set.go` -/

/-- Variable `availableProviders`. -/
def availableProviders : List Str := ["gemini".toList, "luminai".toList]

/-- Field `Long` of `setCmd`: the help text of `config provider set`. -/
def setCmdLong : Str := "Set the preferred AI provider (e.g. gemini, openai, luminai)".toList

/-- The `range` loop of `isValidProvider` over a list of provider names. -/
def providerIn : List Str → Str → Bool
  | [], _ => false
  | p :: rest, provider => if p = provider then true else providerIn rest provider

/-- Function `isValidProvider`. -/
def isValidProvider (provider : Str) : Bool :=
  providerIn availableProviders provider

/-- The in-memory settings of viper: keys with their values, latest first. -/
abbrev Settings := List (Str × Str)

/-- Call `viper.Set(key, value)`. -/
def viperSet (key value : Str) (settings : Settings) : Settings :=
  (key, value) :: settings.filter (fun e => e.1 ≠ key)

/-- Call `viper.GetString(key)`: the empty string when the key is not set. -/
def viperGetString (key : Str) : Settings → Str
  | [] => []
  | (k, v) :: rest => if k = key then v else viperGetString key rest

/-- One run of `setCmd.Run`: the settings afterwards, the text printed, and the exit
status if `cobra.CheckErr` ended the process. -/
structure SetRun where
  settings : Settings
  stdout : List Str
  stderr : List Str
  exitCode : Option Nat

/-- Field `Run` of `setCmd`, for `args[0] = provider` (`cobra.ExactArgs(1)`).
`writeConfig` is the error returned by `viper.WriteConfig`. -/
def setCmdRun (writeConfig : Option Error) (settings : Settings) (provider : Str) : SetRun :=
  if !isValidProvider provider then
    { settings := settings,
      stdout := ["❌ Invalid provider: '".toList ++ provider ++
        "'. Available options: [".toList ++ Join availableProviders " ".toList ++
        "]\n".toList],
      stderr := [], exitCode := none }
  else
    let settings := viperSet "ai.provider".toList provider settings
    match writeConfig with
    | some err =>
      { settings := settings, stdout := [],
        stderr := ["Error: ".toList ++ err ++ "\n".toList], exitCode := some 1 }
    | none =>
      { settings := settings,
        stdout := ["✅ AI provider set to: ".toList ++ provider ++ "\n".toList],
        stderr := [], exitCode := none }

/-! ## Auxiliary definitions and concrete inputs -/

/-- A configuration with neither provider nor API key. -/
def emptyConfig : Config := { apiModel := [], aiProvider := [], apiKey := [] }

/-- A configuration with provider and API key set. -/
def readyConfig : Config :=
  { apiModel := [], aiProvider := "luminai".toList, apiKey := "k".toList }

/-- Flag values asking for quiet output without auto-confirmation. -/
def quietFlags : Flags :=
  { stageAll := false, userContext := [], model := "gemini-2.0-flash".toList,
    noConfirm := false, quiet := true, push := false, dryRun := false, showDiff := false,
    maxLength := 72, aiProvider := [], language := "english".toList, issue := [],
    noVerify := false }

/-- The line closing the prompt when an issue is given, nothing otherwise. -/
def issueLine (issue : Str) : Str :=
  if issue ≠ [] then "\n- Reference issue: ".toList ++ issue else []

/-- The text opening the prompt: the context sentence, or nothing. -/
def contextLine (context : Str) : Str :=
  if context ≠ [] then "Use the following context to understand intent: ".toList ++ context
  else []

/-- The service with an empty base prompt. -/
def plainService : LuminaiService := { luminaiPrompt := [] }

/-- A provider answer: the JSON object with "result" set to a fenced, padded message. -/
def fencedAnswer : Json :=
  .obj [("result".toList, .str "  ```feat: add x```  ".toList)]

/-- A provider stub that gives the same exchange result for every request. -/
def stubPost (r : HttpResult) : Payload → HttpResult := fun _ => r

/-- Pre-commit data with a one-line diff. -/
def sampleData : LuminaiPreCommitData :=
  { Files := ["a.go".toList], Diff := "+x".toList, RelatedFiles := [], Issue := [] }

/-- Options of a quiet, auto-confirmed run. -/
def quietOpts : LuminaiCommitOptions :=
  { StageAll := false, UserContext := [], Model := "gemini-2.0-flash".toList,
    NoConfirm := true, Quiet := true, Push := false, DryRun := false, ShowDiff := false,
    MaxLength := 72, Language := "english".toList, Issue := [], NoVerify := false }

/-- Options of a run with terminal output. -/
def loudOpts : LuminaiCommitOptions :=
  { StageAll := false, UserContext := [], Model := "gemini-2.0-flash".toList,
    NoConfirm := true, Quiet := false, Push := false, DryRun := false, ShowDiff := false,
    MaxLength := 72, Language := "english".toList, Issue := [], NoVerify := false }

/-- A failure of the HTTP request. -/
def refusedError : Error := "dial tcp: connect: connection refused".toList

/-- A failure while reading the response body. -/
def resetError : Error := "read: connection reset by peer".toList

/-- A spinner failure. -/
def ttyError : Error := "could not open a new TTY".toList

/-- A JSON syntax error. -/
def syntaxError : Error := "invalid character '<' looking for beginning of value".toList

/-! # Properties -/

/-! ## Properties of `RootHandler.RootCommand` -/

/-- C4: when `ai.provider` is the empty string, then for every API key, every flag value
and every use case, the handler ends with exit status 1, makes no call to the use case,
prints the provider message (not the API-key message) and has not touched the flags:
the provider check is decided first. -/
theorem RootCommand_missing_provider (useCase : UseCaseArgs → Option Error) (cfg : Config)
    (flags : Flags) (h : cfg.aiProvider = []) :
    (RootCommand useCase cfg flags).exitCode = some 1 ∧
    (RootCommand useCase cfg flags).useCaseCalls = [] ∧
    (RootCommand useCase cfg flags).stdout = providerMissingOutput ∧
    (RootCommand useCase cfg flags).stdout ≠ apiKeyMissingOutput := by
  have hne : providerMissingOutput ≠ apiKeyMissingOutput := by decide
  simp [RootCommand, h, hne]

/-- Instance of C4 with provider and API key both missing. -/
theorem RootCommand_missing_provider_witness :
    emptyConfig.aiProvider = [] ∧
    (RootCommand (fun _ => none) emptyConfig quietFlags).exitCode = some 1 ∧
    (RootCommand (fun _ => none) emptyConfig quietFlags).useCaseCalls = [] ∧
    (RootCommand (fun _ => none) emptyConfig quietFlags).stdout = providerMissingOutput ∧
    (RootCommand (fun _ => none) emptyConfig quietFlags).stdout ≠ apiKeyMissingOutput :=
  ⟨rfl, RootCommand_missing_provider (fun _ => none) emptyConfig quietFlags rfl⟩

/-- C5: with provider and API key configured, the handler calls the use case exactly
once, passing `quiet && noConfirm` as quiet and `noConfirm` unchanged; so quiet is never
passed as true together with noConfirm false. -/
theorem RootCommand_quiet_coupling (useCase : UseCaseArgs → Option Error) (cfg : Config)
    (flags : Flags) (hp : cfg.aiProvider ≠ []) (hk : cfg.apiKey ≠ []) :
    ∃ args, (RootCommand useCase cfg flags).useCaseCalls = [args] ∧
      args.quiet = (flags.quiet && flags.noConfirm) ∧
      args.noConfirm = flags.noConfirm ∧
      ¬ (args.quiet = true ∧ args.noConfirm = false) := by
  obtain ⟨sa, uc, model, noConfirm, quiet, push, dry, sd, ml, ap, lang, iss, nv⟩ := flags
  refine ⟨UseCaseArgs.mk cfg.apiKey sa uc
      (if cfg.apiModel ≠ [] ∧ model = "gemini-2.0-flash".toList then cfg.apiModel else model)
      noConfirm (quiet && noConfirm) push dry sd ml lang iss nv, ?_, rfl, rfl, ?_⟩
  · show (RootCommand useCase cfg _).useCaseCalls = _
    unfold RootCommand
    by_cases hm : cfg.apiModel ≠ [] ∧ model = "gemini-2.0-flash".toList <;>
      cases quiet <;> cases noConfirm <;>
      simp only [hp, hk, hm, if_true, if_false, ne_eq, not_false_eq_true, Bool.and_self,
        Bool.not_false, Bool.not_true, Bool.and_false, Bool.and_true, Bool.true_and,
        Bool.false_and, Bool.false_eq_true, not_true_eq_false] <;>
      split <;> rfl
  · cases quiet <;> cases noConfirm <;> simp

/-- Instance of C5: quiet asked without auto-confirmation is passed on as not quiet. -/
theorem RootCommand_quiet_coupling_witness :
    readyConfig.aiProvider ≠ [] ∧ readyConfig.apiKey ≠ [] ∧
    ∃ args, (RootCommand (fun _ => none) readyConfig quietFlags).useCaseCalls = [args] ∧
      args.quiet = (quietFlags.quiet && quietFlags.noConfirm) ∧
      args.noConfirm = quietFlags.noConfirm ∧
      ¬ (args.quiet = true ∧ args.noConfirm = false) :=
  ⟨by decide, by decide,
    RootCommand_quiet_coupling (fun _ => none) readyConfig quietFlags (by decide) (by decide)⟩

/-! ## Properties of the prompt builders -/

/-- Layout of the prompt built by `GetUserPrompt`. -/
theorem GetUserPrompt_layout (g : LuminaiService) (context diff : Str) (files : List Str)
    (maxLength : Int) (language issue : Str) :
    (g.GetUserPrompt context diff files maxLength language issue).prompt =
      contextLine context ++ "\n\nCode diff:\n".toList ++ diff ++
      ("\n\nNeighboring files:\n".toList ++ Join files ", ".toList ++ "\n\n".toList) ++
      ("Requirements:\n- Maximum commit message length: ".toList ++ fmtInt maxLength ++
        " characters".toList) ++
      ("\n- Language: ".toList ++ language ++ issueLine issue) := by
  unfold LuminaiService.GetUserPrompt contextLine issueLine
  by_cases hi : issue = [] <;> simp [hi]

/-- C6: for a non-empty diff and a positive maximum length, `GetUserPrompt` returns a nil
error and a prompt in which the diff text occurs verbatim, followed later by the
requirements block with the line "Maximum commit message length: N characters", N being
the decimal digits of the maximum length. -/
theorem GetUserPrompt_contains (g : LuminaiService) (context diff : Str) (files : List Str)
    (maxLength : Int) (language issue : Str) (_hdiff : diff ≠ []) (hmax : 0 < maxLength) :
    (g.GetUserPrompt context diff files maxLength language issue).err = none ∧
    diff <:+: (g.GetUserPrompt context diff files maxLength language issue).prompt ∧
    ("Maximum commit message length: ".toList ++ Nat.toDigits 10 maxLength.toNat ++
        " characters".toList) <:+:
      (g.GetUserPrompt context diff files maxLength language issue).prompt ∧
    ∃ pre mid post,
      (g.GetUserPrompt context diff files maxLength language issue).prompt =
        pre ++ diff ++ mid ++
        ("Requirements:\n- Maximum commit message length: ".toList ++
          Nat.toDigits 10 maxLength.toNat ++ " characters".toList) ++ post := by
  have hfmt : fmtInt maxLength = Nat.toDigits 10 maxLength.toNat := by
    unfold fmtInt
    rw [if_neg (by omega)]
  have hlay := GetUserPrompt_layout g context diff files maxLength language issue
  rw [hfmt] at hlay
  refine ⟨rfl, ?_, ?_, ?_⟩
  · rw [hlay]
    exact ⟨contextLine context ++ "\n\nCode diff:\n".toList, _, by
      simp only [List.append_assoc]; rfl⟩
  · rw [hlay]
    refine ⟨contextLine context ++ "\n\nCode diff:\n".toList ++ diff ++
      ("\n\nNeighboring files:\n".toList ++ Join files ", ".toList ++ "\n\n".toList) ++
      "Requirements:\n- ".toList, "\n- Language: ".toList ++ language ++ issueLine issue, ?_⟩
    simp [List.append_assoc]
  · exact ⟨contextLine context ++ "\n\nCode diff:\n".toList, _, _, hlay⟩

/-- Instance of C6: a one-line diff and the maximum length 72. -/
theorem GetUserPrompt_contains_witness :
    ((⟨[]⟩ : LuminaiService).GetUserPrompt [] "+x".toList [] 72 "english".toList []).err
      = none ∧
    "+x".toList <:+:
      ((⟨[]⟩ : LuminaiService).GetUserPrompt [] "+x".toList [] 72 "english".toList []).prompt ∧
    ("Maximum commit message length: ".toList ++ Nat.toDigits 10 (72 : Int).toNat ++
        " characters".toList) <:+:
      ((⟨[]⟩ : LuminaiService).GetUserPrompt [] "+x".toList [] 72 "english".toList []).prompt ∧
    ∃ pre mid post,
      ((⟨[]⟩ : LuminaiService).GetUserPrompt [] "+x".toList [] 72 "english".toList []).prompt =
        pre ++ "+x".toList ++ mid ++
        ("Requirements:\n- Maximum commit message length: ".toList ++
          Nat.toDigits 10 (72 : Int).toNat ++ " characters".toList) ++ post :=
  GetUserPrompt_contains ⟨[]⟩ [] "+x".toList [] 72 "english".toList [] (by decide) (by decide)

/-- C7: the prompt opens with the context sentence when a context is given and with an
empty line followed by the diff header when the context is empty; it is the prompt for
the empty issue (which ends with the language line) followed by the issue line when an
issue is given, and exactly that prompt otherwise; the caller's context string is not
changed. -/
theorem GetUserPrompt_context_issue (g : LuminaiService) (context diff : Str)
    (files : List Str) (maxLength : Int) (language issue : Str) :
    (context ≠ [] →
      ("Use the following context to understand intent: ".toList ++ context ++
        "\n\nCode diff:\n".toList ++ diff) <+:
        (g.GetUserPrompt context diff files maxLength language issue).prompt) ∧
    (context = [] →
      ("\n\nCode diff:\n".toList ++ diff) <+:
        (g.GetUserPrompt context diff files maxLength language issue).prompt) ∧
    (issue ≠ [] →
      (g.GetUserPrompt context diff files maxLength language issue).prompt =
        (g.GetUserPrompt context diff files maxLength language []).prompt ++
          ("\n- Reference issue: ".toList ++ issue)) ∧
    (issue = [] →
      (g.GetUserPrompt context diff files maxLength language issue).prompt =
        (g.GetUserPrompt context diff files maxLength language []).prompt) ∧
    ("- Language: ".toList ++ language) <:+
      (g.GetUserPrompt context diff files maxLength language []).prompt ∧
    (g.GetUserPrompt context diff files maxLength language issue).callerContext = context := by
  refine ⟨?_, ?_, ?_, ?_, ?_, ?_⟩
  · intro hc
    rw [GetUserPrompt_layout]
    exact ⟨_, by simp only [contextLine, if_pos hc, List.append_assoc]; rfl⟩
  · intro hc
    rw [GetUserPrompt_layout]
    exact ⟨_, by simp only [contextLine, hc, ne_eq, not_true_eq_false, if_false,
      List.nil_append, List.append_assoc]; rfl⟩
  · intro hi
    rw [GetUserPrompt_layout, GetUserPrompt_layout]
    simp [issueLine, hi]
  · intro hi
    rw [hi]
  · rw [GetUserPrompt_layout]
    refine ⟨contextLine context ++ "\n\nCode diff:\n".toList ++ diff ++
      ("\n\nNeighboring files:\n".toList ++ Join files ", ".toList ++ "\n\n".toList) ++
      ("Requirements:\n- Maximum commit message length: ".toList ++ fmtInt maxLength ++
        " characters".toList) ++ "\n".toList, ?_⟩
    simp [issueLine]
  · unfold LuminaiService.GetUserPrompt
    by_cases hc : context = [] <;> simp [hc]

/-- C8: the system prompt is the base prompt, then the language directive unless the
language is "english", then the length directive, then the issue directive unless the
issue is empty. -/
theorem enhancedPrompt_order (base language : Str) (maxLength : Int) (issue : Str) :
    enhancedPrompt base language maxLength issue =
      base ++
      (if language ≠ "english".toList then
        "\n\nIMPORTANT: Generate the commit message in ".toList ++ language ++
          " language.".toList
       else []) ++
      ("\n\nIMPORTANT: Keep the commit message under ".toList ++ fmtInt maxLength ++
        " characters.".toList) ++
      (if issue ≠ [] then
        "\n\nIMPORTANT: Reference issue ".toList ++ issue ++ " in the commit message.".toList
       else []) := by
  simp only [enhancedPrompt]
  split_ifs <;> simp only [List.append_nil, List.append_assoc]

/-! ## Properties of the analysis and of the validation step -/

/-- C1: evaluation at the provider answer with "result" set to the fenced message
"feat: add x".  The normalisation of that text is "feat: add x", but `AnalyzeChanges`
returns the empty string with a nil error, and `GenerateCommitMessage` in quiet mode
returns the empty message with the error "no commit messages were generated. try
again"; the same holds for every JSON object, whatever its members. -/
theorem AnalyzeChanges_ignores_result :
    norm "  ```feat: add x```  ".toList = "feat: add x".toList ∧
    plainService.AnalyzeChanges (stubPost (.body (.ok fencedAnswer))) sampleData.Diff
      quietOpts.UserContext sampleData.RelatedFiles quietOpts.MaxLength quietOpts.Language
      sampleData.Issue = .ret ([], none) ∧
    plainService.GenerateCommitMessage (stubPost (.body (.ok fencedAnswer))) none sampleData
      quietOpts = .ret ([], some noMessagesError) ∧
    ∀ (g : LuminaiService) (members : List (Str × Json)) (spinner : Option Error)
      (data : LuminaiPreCommitData) (opts : LuminaiCommitOptions),
      g.AnalyzeChanges (stubPost (.body (.ok (.obj members)))) data.Diff opts.UserContext
        data.RelatedFiles opts.MaxLength opts.Language data.Issue = .ret ([], none) ∧
      (opts.Quiet = true →
        g.GenerateCommitMessage (stubPost (.body (.ok (.obj members)))) spinner data opts =
          .ret ([], some noMessagesError)) := by
  refine ⟨by decide, rfl, rfl, ?_⟩
  intro g members spinner data opts
  refine ⟨rfl, ?_⟩
  intro hq
  simp [LuminaiService.GenerateCommitMessage, LuminaiService.analyzeToChannel,
    LuminaiService.AnalyzeChanges, LuminaiService.GetUserPrompt, stubPost,
    unmarshalResponse, sentMessage, commitMessageFrom, hq, norm, TrimSpace, ReplaceAll,
    fence, replaceFrom]

/-- An error of the spinner is returned whatever the channel would deliver. -/
theorem commitMessageFrom_spinner (err : Error) (sent : Proc Str) :
    commitMessageFrom false (some err) sent = .ret ([], some err) := rfl

/-- The validation step never gives an empty message with a nil error. -/
theorem commitMessageFrom_ne (quiet : Bool) (spinner : Option Error) (sent : Proc Str) :
    commitMessageFrom quiet spinner sent ≠ .ret ([], none) := by
  cases quiet <;> cases spinner <;> cases sent <;>
    simp only [commitMessageFrom] <;> try split_ifs
  all_goals simp_all

/-- The validation step in quiet mode, or after a spinner without error, for an
analysis that returned text `t` and error `e`. -/
theorem commitMessageFrom_ret (quiet : Bool) (spinner : Option Error) (t : Str)
    (e : Option Error) (h : quiet = true ∨ spinner = none) :
    (e = none ∧ TrimSpace t ≠ [] →
      commitMessageFrom quiet spinner (sentMessage (.ret (t, e))) = .ret (TrimSpace t, none)) ∧
    (e ≠ none ∨ TrimSpace t = [] →
      commitMessageFrom quiet spinner (sentMessage (.ret (t, e))) =
        .ret ([], some noMessagesError)) := by
  have hnil : TrimSpace [] = [] := rfl
  rcases h with h | h <;> subst h <;> cases e <;> by_cases ht : TrimSpace t = [] <;>
    simp [commitMessageFrom, sentMessage, ht, hnil]

/-- C2, counterexample: a run that is not quiet, whose spinner fails, and whose analysis
returns the empty text with a nil error (the provider answered with a JSON object).
`GenerateCommitMessage` returns the empty message with the error of the spinner, which
is not the error "no commit messages were generated. try again" that the claim gives
for an analysis text that is empty after trimming. -/
theorem GenerateCommitMessage_spinner_failure :
    plainService.AnalyzeChanges (stubPost (.body (.ok fencedAnswer))) sampleData.Diff
      loudOpts.UserContext sampleData.RelatedFiles loudOpts.MaxLength loudOpts.Language
      sampleData.Issue = .ret ([], none) ∧
    TrimSpace [] = [] ∧
    plainService.GenerateCommitMessage (stubPost (.body (.ok fencedAnswer))) (some ttyError)
      sampleData loudOpts = .ret ([], some ttyError) ∧
    ttyError ≠ noMessagesError ∧
    ¬ (plainService.GenerateCommitMessage (stubPost (.body (.ok fencedAnswer)))
        (some ttyError) sampleData loudOpts = .ret ([], some noMessagesError)) := by
  refine ⟨rfl, rfl, rfl, by decide, ?_⟩
  have h : plainService.GenerateCommitMessage (stubPost (.body (.ok fencedAnswer)))
      (some ttyError) sampleData loudOpts = .ret ([], some ttyError) := rfl
  rw [h]
  decide

/-- C2, amended: `GenerateCommitMessage` never returns an empty message with a nil
error.  When the run is not quiet and the spinner fails, it returns the empty message
with the error of the spinner, whatever the analysis produced (also when the analysis
ends the process).  In quiet mode, or when the spinner ends without error, and the
analysis returned text `t` and error `e`, it returns the trimmed text with a nil error
when `e` is nil and the trimmed text is non-empty, and otherwise the empty message with
the error "no commit messages were generated. try again".  The last two statements are
given for the method with its own analysis and for the validation step fed with an
arbitrary analysis outcome. -/
theorem GenerateCommitMessage_outcome (g : LuminaiService) (post : Payload → HttpResult)
    (spinner : Option Error) (data : LuminaiPreCommitData) (opts : LuminaiCommitOptions)
    (t : Str) (e : Option Error) :
    g.GenerateCommitMessage post spinner data opts ≠ .ret ([], none) ∧
    (opts.Quiet = false → ∀ err, spinner = some err →
      g.GenerateCommitMessage post spinner data opts = .ret ([], some err)) ∧
    (opts.Quiet = true ∨ spinner = none →
      g.AnalyzeChanges post data.Diff opts.UserContext data.RelatedFiles opts.MaxLength
        opts.Language data.Issue = .ret (t, e) →
      (e = none ∧ TrimSpace t ≠ [] →
        g.GenerateCommitMessage post spinner data opts = .ret (TrimSpace t, none)) ∧
      (e ≠ none ∨ TrimSpace t = [] →
        g.GenerateCommitMessage post spinner data opts = .ret ([], some noMessagesError))) ∧
    (∀ (quiet : Bool) (analysis : Proc (Str × Option Error)),
      commitMessageFrom quiet spinner (sentMessage analysis) ≠ .ret ([], none) ∧
      (quiet = false → ∀ err, spinner = some err →
        commitMessageFrom quiet spinner (sentMessage analysis) = .ret ([], some err))) ∧
    ∀ (quiet : Bool), quiet = true ∨ spinner = none →
      (e = none ∧ TrimSpace t ≠ [] →
        commitMessageFrom quiet spinner (sentMessage (.ret (t, e))) =
          .ret (TrimSpace t, none)) ∧
      (e ≠ none ∨ TrimSpace t = [] →
        commitMessageFrom quiet spinner (sentMessage (.ret (t, e))) =
          .ret ([], some noMessagesError)) := by
  have hm : g.GenerateCommitMessage post spinner data opts =
      commitMessageFrom opts.Quiet spinner (sentMessage (g.AnalyzeChanges post data.Diff
        opts.UserContext data.RelatedFiles opts.MaxLength opts.Language data.Issue)) := rfl
  refine ⟨?_, ?_, ?_, ?_, ?_⟩
  · rw [hm]
    exact commitMessageFrom_ne _ _ _
  · intro hq err hs
    rw [hm, hq, hs]
    exact commitMessageFrom_spinner err _
  · intro h ha
    rw [hm, ha]
    exact commitMessageFrom_ret opts.Quiet spinner t e h
  · intro quiet analysis
    refine ⟨commitMessageFrom_ne _ _ _, ?_⟩
    intro hq err hs
    rw [hq, hs]
    exact commitMessageFrom_spinner err _
  · intro quiet h
    exact commitMessageFrom_ret quiet spinner t e h

/-- C3: evaluation at a response body that is not valid JSON (an HTML error page), at a
failing HTTP request, at a failing read of the body and at a JSON object without
"result".  In the first two cases `AnalyzeChanges` ends the process through
`log.Fatalf`, so that no error, and no value at all, reaches its caller; in the last two
it returns the empty string with a nil error. -/
theorem AnalyzeChanges_invalid_json_fatal :
    plainService.AnalyzeChanges (stubPost (.body (.error syntaxError))) sampleData.Diff
      quietOpts.UserContext sampleData.RelatedFiles quietOpts.MaxLength quietOpts.Language
      sampleData.Issue = .fatal ("Gagal decode JSON response: ".toList ++ syntaxError) ∧
    (¬ ∃ t err,
      plainService.AnalyzeChanges (stubPost (.body (.error syntaxError))) sampleData.Diff
        quietOpts.UserContext sampleData.RelatedFiles quietOpts.MaxLength quietOpts.Language
        sampleData.Issue = .ret (t, some err)) ∧
    plainService.AnalyzeChanges (stubPost (.requestFailed refusedError)) sampleData.Diff
      quietOpts.UserContext sampleData.RelatedFiles quietOpts.MaxLength quietOpts.Language
      sampleData.Issue = .fatal ("Request gagal: ".toList ++ refusedError) ∧
    plainService.AnalyzeChanges (stubPost (.readFailed resetError)) sampleData.Diff
      quietOpts.UserContext sampleData.RelatedFiles quietOpts.MaxLength quietOpts.Language
      sampleData.Issue = .ret ([], none) ∧
    plainService.AnalyzeChanges (stubPost (.body (.ok (.obj [])))) sampleData.Diff
      quietOpts.UserContext sampleData.RelatedFiles quietOpts.MaxLength quietOpts.Language
      sampleData.Issue = .ret ([], none) := by
  refine ⟨rfl, ?_, rfl, rfl, rfl⟩
  rintro ⟨t, err, h⟩
  exact Proc.noConfusion h

/-- The two `log.Fatalf` paths of `AnalyzeChanges`, for every input: a response body
that is not valid JSON, and a failing HTTP request, end the process with the log text
"Gagal decode JSON response: " or "Request gagal: " followed by the error. -/
theorem AnalyzeChanges_fatal (g : LuminaiService) (post : Payload → HttpResult)
    (diff userContext : Str) (relatedFiles : List (Str × Str)) (maxLength : Int)
    (language issue : Str) (e : Error) :
    (post { prompt := [], user := [],
            content := (g.GetUserPrompt userContext diff
              (relatedFiles.map (fun f => f.1 ++ "/".toList ++ f.2))
              maxLength language issue).prompt } = .body (.error e) →
      g.AnalyzeChanges post diff userContext relatedFiles maxLength language issue =
        .fatal ("Gagal decode JSON response: ".toList ++ e)) ∧
    (post { prompt := [], user := [],
            content := (g.GetUserPrompt userContext diff
              (relatedFiles.map (fun f => f.1 ++ "/".toList ++ f.2))
              maxLength language issue).prompt } = .requestFailed e →
      g.AnalyzeChanges post diff userContext relatedFiles maxLength language issue =
        .fatal ("Request gagal: ".toList ++ e)) := by
  constructor <;> intro h <;> unfold LuminaiService.AnalyzeChanges <;>
    simp only [h] <;> rfl

/-! ## Properties of `config provider set` -/

/-- C10: evaluation at the provider name "openai", which the help text of the command
gives as an example next to "gemini" and "luminai".  `isValidProvider` accepts "gemini"
and "luminai", which the command stores under "ai.provider", but rejects "openai": the
command then leaves the settings as they were, as it does for every rejected name. -/
theorem setCmd_rejects_openai :
    "gemini".toList <:+: setCmdLong ∧ "openai".toList <:+: setCmdLong ∧
    "luminai".toList <:+: setCmdLong ∧
    isValidProvider "gemini".toList = true ∧ isValidProvider "luminai".toList = true ∧
    isValidProvider "openai".toList = false ∧
    (∀ (w : Option Error) (settings : Settings),
      (setCmdRun w settings "openai".toList).settings = settings ∧
      viperGetString "ai.provider".toList (setCmdRun w settings "gemini".toList).settings =
        "gemini".toList ∧
      viperGetString "ai.provider".toList (setCmdRun w settings "luminai".toList).settings =
        "luminai".toList) ∧
    ∀ (w : Option Error) (settings : Settings) (provider : Str),
      isValidProvider provider = false →
        (setCmdRun w settings provider).settings = settings := by
  refine ⟨by decide, by decide, by decide, by decide, by decide, by decide, ?_, ?_⟩
  · intro w settings
    refine ⟨rfl, ?_, ?_⟩ <;> cases w <;> rfl
  · intro w settings provider h
    simp [setCmdRun, h]

/-! ## Properties of the result normalisation -/

/-- A pending skip count amounts to dropping that many characters first. -/
theorem replaceFrom_skip (old new : Str) (k : Nat) (s : Str) :
    replaceFrom old new k s = replaceFrom old new 0 (s.drop k) := by
  induction s generalizing k with
  | nil => cases k <;> rfl
  | cons c t ih =>
    cases k with
    | zero => rfl
    | succ k => simpa [replaceFrom] using ih k

/-- Removing the fences from the empty text. -/
theorem strip_nil : ReplaceAll [] fence [] = [] := rfl

/-- A fence at the front is removed and the scan goes on behind it. -/
theorem strip_fence (t : Str) : ReplaceAll (fence ++ t) fence [] = ReplaceAll t fence [] := by
  show replaceFrom fence [] 0 (fence ++ t) = replaceFrom fence [] 0 t
  have h : fence ++ t = '`' :: '`' :: '`' :: t := rfl
  rw [h, replaceFrom, if_pos (by simp [fence]), List.nil_append, replaceFrom_skip]
  rfl

/-- A character that does not start a fence is kept. -/
theorem strip_cons (c : Char) (t : Str) (h : fence.isPrefixOf (c :: t) = false) :
    ReplaceAll (c :: t) fence [] = c :: ReplaceAll t fence [] := by
  show replaceFrom fence [] 0 (c :: t) = c :: replaceFrom fence [] 0 t
  rw [replaceFrom, if_neg (by simp [h])]

/-- A text starts with a fence or it does not. -/
theorem fence_cases (s : Str) : (∃ t, s = fence ++ t) ∨ fence.isPrefixOf s = false := by
  cases h : fence.isPrefixOf s with
  | false => exact Or.inr rfl
  | true =>
    obtain ⟨t, ht⟩ := List.isPrefixOf_iff_prefix.mp h
    exact Or.inl ⟨t, ht.symm⟩

/-- The text left after removing the fences does not start with a fence. -/
theorem strip_head_free (s : Str) : ¬ fence <+: ReplaceAll s fence [] := by
  suffices H : ∀ n (s : Str), s.length ≤ n → ¬ fence <+: ReplaceAll s fence [] from
    H s.length s (Nat.le_refl _)
  intro n
  induction n with
  | zero =>
    intro s hs
    have : s = [] := List.length_eq_zero.mp (Nat.le_zero.mp hs)
    subst this
    rw [strip_nil]; simp [fence]
  | succ n ih =>
    intro s hs
    rcases fence_cases s with ⟨t, rfl⟩ | h
    · rw [strip_fence]
      exact ih t (by simp [fence] at hs; omega)
    · cases s with
      | nil => rw [strip_nil]; simp [fence]
      | cons c t =>
        rw [strip_cons c t h]
        intro hp
        have hc : c = '`' := by
          have := (List.cons_prefix_cons.mp hp).1
          exact this.symm
        have hp1 : ['`', '`'] <+: ReplaceAll t fence [] := (List.cons_prefix_cons.mp hp).2
        subst hc
        rcases fence_cases t with ⟨t1, rfl⟩ | h1
        · simp [fence] at h
        · cases t with
          | nil => simp [strip_nil] at hp1
          | cons d t1 =>
            rw [strip_cons d t1 h1] at hp1
            have hd : d = '`' := ((List.cons_prefix_cons.mp hp1).1).symm
            have hp2 : ['`'] <+: ReplaceAll t1 fence [] := (List.cons_prefix_cons.mp hp1).2
            subst hd
            rcases fence_cases t1 with ⟨t2, rfl⟩ | h2
            · simp [fence] at h
            · cases t1 with
              | nil => simp [strip_nil] at hp2
              | cons e t2 =>
                rw [strip_cons e t2 h2] at hp2
                have he : e = '`' := ((List.cons_prefix_cons.mp hp2).1).symm
                subst he
                simp [fence] at h

/-- The text left after removing the fences contains no fence. -/
theorem strip_no_fence (s : Str) : ¬ fence <:+: ReplaceAll s fence [] := by
  suffices H : ∀ n (s : Str), s.length ≤ n → ¬ fence <:+: ReplaceAll s fence [] from
    H s.length s (Nat.le_refl _)
  intro n
  induction n with
  | zero =>
    intro s hs
    have : s = [] := List.length_eq_zero.mp (Nat.le_zero.mp hs)
    subst this
    rw [strip_nil]; simp [fence]
  | succ n ih =>
    intro s hs
    rcases fence_cases s with ⟨t, rfl⟩ | h
    · rw [strip_fence]
      exact ih t (by simp [fence] at hs; omega)
    · cases s with
      | nil => rw [strip_nil]; simp [fence]
      | cons c t =>
        have hpre := strip_head_free (c :: t)
        rw [strip_cons c t h] at hpre ⊢
        rw [List.infix_cons_iff]
        rintro (hp | hi)
        · exact hpre hp
        · exact ih t (by simp at hs; omega) hi

/-- A text without fence is left as it is. -/
theorem strip_eq_self (s : Str) (h : ¬ fence <:+: s) : ReplaceAll s fence [] = s := by
  induction s with
  | nil => rfl
  | cons c t ih =>
    have hpre : fence.isPrefixOf (c :: t) = false := by
      cases hb : fence.isPrefixOf (c :: t) with
      | false => rfl
      | true => exact absurd (List.isPrefixOf_iff_prefix.mp hb).isInfix h
    rw [strip_cons c t hpre, ih (fun hi => h (List.infix_cons hi))]

/-- Trimming gives a contiguous part of the text. -/
theorem TrimSpace_part (u : Str) : TrimSpace u <:+: u :=
  (List.rdropWhile_prefix isSpace _).isInfix.trans (List.dropWhile_suffix isSpace).isInfix

/-- A trimmed text does not start with white space. -/
theorem TrimSpace_head (u : Str) (c : Char) (h : (TrimSpace u).head? = some c) :
    isSpace c = false := by
  unfold TrimSpace at h
  obtain ⟨r, hr⟩ := List.rdropWhile_prefix isSpace (u.dropWhile isSpace)
  cases hw : (u.dropWhile isSpace).rdropWhile isSpace with
  | nil => simp [hw] at h
  | cons a w =>
    rw [hw] at h hr
    have hac : a = c := by simpa using h
    have hne : u.dropWhile isSpace ≠ [] := by rw [← hr]; simp
    have hhead := List.head_dropWhile_not isSpace u hne
    have : (u.dropWhile isSpace).head hne = a := by
      simp only [← hr, List.cons_append, List.head_cons]
    rw [this, hac] at hhead
    exact hhead

/-- A trimmed text does not end with white space. -/
theorem TrimSpace_getLast (u : Str) (c : Char) (h : (TrimSpace u).getLast? = some c) :
    isSpace c = false := by
  unfold TrimSpace at h
  have hne : (u.dropWhile isSpace).rdropWhile isSpace ≠ [] := by
    intro h0; simp [h0] at h
  have hlast := List.rdropWhile_last_not isSpace (u.dropWhile isSpace) hne
  rw [List.getLast?_eq_getLast _ hne] at h
  have hc : ((u.dropWhile isSpace).rdropWhile isSpace).getLast hne = c := by simpa using h
  rw [hc] at hlast
  simpa using hlast

/-- A text that neither starts nor ends with white space is left as it is by trimming. -/
theorem TrimSpace_eq_self (w : Str) (hh : ∀ c, w.head? = some c → isSpace c = false)
    (hl : ∀ c, w.getLast? = some c → isSpace c = false) : TrimSpace w = w := by
  unfold TrimSpace
  have h1 : w.dropWhile isSpace = w := by
    cases w with
    | nil => rfl
    | cons a t => simp [List.dropWhile_cons, hh a rfl]
  rw [h1, List.rdropWhile_eq_self_iff]
  intro hne
  have := hl (w.getLast hne) (List.getLast?_eq_getLast _ hne)
  simp [this]

/-- C9: the normalisation `norm s = TrimSpace (ReplaceAll s fence "")` is idempotent;
its result contains no three consecutive backticks and neither starts nor ends with
white space. -/
theorem norm_idempotent (s : Str) :
    norm (norm s) = norm s ∧
    ¬ fence <:+: norm s ∧
    (∀ c, (norm s).head? = some c → isSpace c = false) ∧
    (∀ c, (norm s).getLast? = some c → isSpace c = false) := by
  have hnf : ¬ fence <:+: norm s := fun h =>
    strip_no_fence s (h.trans (TrimSpace_part _))
  have hh : ∀ c, (norm s).head? = some c → isSpace c = false := TrimSpace_head _
  have hl : ∀ c, (norm s).getLast? = some c → isSpace c = false := TrimSpace_getLast _
  refine ⟨?_, hnf, hh, hl⟩
  show TrimSpace (ReplaceAll (norm s) fence []) = norm s
  rw [strip_eq_self (norm s) hnf]
  exact TrimSpace_eq_self (norm s) hh hl

end Autocommit
